import Mathlib

/-!
A shallow embedding of the `rls` directory-listing utility (`src/main.rs`)
and proofs about its tree builder (`read_directory`, `filter_hidden`) and
renderer (`list`, `print_dir`, `print_dir_rec`, `parse_dir_entry`).

The filesystem and the user database are modelled as oracles supplied as
parameters; OS strings carry an explicit `utf8` flag recording whether
`.to_str()` succeeds on them.
-/

namespace Rls

/-- Entry kind as reported by `Metadata::{is_dir, is_file, is_symlink}`.
`other` covers entries for which all three tests are false. -/
inductive FsKind where
  | file
  | dir
  | symlink
  | other
deriving DecidableEq, Repr

/-- The slice of `std::fs::Metadata` the program reads: kind, `mode()`,
`uid()`, `gid()`, `size()`. -/
structure FsMeta where
  kind : FsKind
  mode : Nat
  uid : Nat
  gid : Nat
  size : Nat
deriving DecidableEq, Repr

/-- An `OsString`: `raw` is its byte content (rendered as a Lean string) and
`utf8` records whether `.to_str()` returns `Some`. -/
structure OsName where
  raw : String
  utf8 : Bool
deriving DecidableEq, Repr

/-- A `PathBuf`, as its list of components. -/
abbrev FsPath := List OsName

/-- The filesystem oracle: `meta` models `Path::metadata` (stat by path),
`entries` models `Path::read_dir` (`none` when the read fails). The same
oracle answers the builder's repeated stats, i.e. the snapshot is
consistent for the duration of one build. -/
structure Fs where
  meta : FsPath → Option FsMeta
  entries : FsPath → Option (List OsName)

/-- `static ITEM_SIGN: &str = "|-"` -/
def ITEM_SIGN : String := "|-"

/-- `static LAST_SIGN: &str = "|_"` -/
def LAST_SIGN : String := "|_"

/-- The recognised command-line arguments (`LsArgs`); `tree : u8` is
modelled as `Nat` (the program never wraps it: `depth - 1` is guarded by
`depth == 0` and `depth + 1` by `depth < tree ≤ 255`). -/
structure LsArgs where
  list : Bool
  all : Bool
  tree : Nat
deriving DecidableEq, Repr

/-- The snapshot node `FSFile` with its `FSFileType` fused in:
`file name path_buf metadata` is `FSFileType::File`,
`dir name path_buf metadata childs` is `FSFileType::Dir(DirType { childs })`. -/
inductive FSFile where
  | file (name : String) (path_buf : FsPath) (metadata : FsMeta)
  | dir (name : String) (path_buf : FsPath) (metadata : FsMeta) (childs : List FSFile)
deriving Repr

/-- The `name` field of an `FSFile`. -/
def FSFile.name : FSFile → String
  | .file n _ _ => n
  | .dir n _ _ _ => n

/-- The `path_buf` field of an `FSFile`. -/
def FSFile.path_buf : FSFile → FsPath
  | .file _ p _ => p
  | .dir _ p _ _ => p

/-- The `metadata` field of an `FSFile`. -/
def FSFile.metadata : FSFile → FsMeta
  | .file _ _ m => m
  | .dir _ _ m _ => m

/-- Whether the `entry_type` is `FSFileType::Dir`. -/
def FSFile.isDir : FSFile → Bool
  | .file _ _ _ => false
  | .dir _ _ _ _ => true

/-- The children of a `Dir` node (`[]` for a `File`). -/
def FSFile.childs : FSFile → List FSFile
  | .file _ _ _ => []
  | .dir _ _ _ cs => cs

/-- `s.starts_with('.')`: the first character is `'.'`. (Stated on the
character list directly so that it evaluates by `rfl`/`decide`;
`String.startsWith` would be equivalent for this single-character
pattern.) -/
def startsWithDot (s : String) : Bool :=
  match s.data with
  | [] => false
  | c :: _ => c = '.'

/-- `fn filter_hidden(read_dir: ReadDir) -> Vec<DirEntry>`: keep an entry
when its name decodes to UTF-8 and does not start with `'.'`; drop it when
the name starts with `'.'` (hidden) or fails to decode (`None` branch). -/
def filter_hidden (read_dir : List OsName) : List OsName :=
  read_dir.filterMap fun entry =>
    if entry.utf8 then
      if startsWithDot entry.raw then none else some entry
    else none

/-- The key `sort_by_key(|fs_file| fs_file.path_buf.clone())` sorts by:
the path's byte content. (The `utf8` modelling flag is not part of the
on-disk bytes, so it is not part of the key.) -/
def pathKey (p : FsPath) : List String := p.map OsName.raw

/-- Code-point comparison of two characters (UTF-8 byte order coincides
with code-point order, so this is byte order). -/
def charLtB (a b : Char) : Bool := decide (a.toNat < b.toNat)

/-- Strict lexicographic order on lists, from a strict order on
components. -/
def lexLtB {α : Type} [DecidableEq α] (lt : α → α → Bool) : List α → List α → Bool
  | [], [] => false
  | [], _ :: _ => true
  | _ :: _, [] => false
  | a :: as, b :: bs => if lt a b then true else if a = b then lexLtB lt as bs else false

/-- Strict byte-lexicographic order on strings. -/
def strLtB (a b : String) : Bool := lexLtB charLtB a.data b.data

/-- Non-strict lexicographic order on lists, from a strict order on
components. -/
def lexLeB {α : Type} [DecidableEq α] (lt : α → α → Bool) : List α → List α → Bool
  | [], _ => true
  | _ :: _, [] => false
  | a :: as, b :: bs => if lt a b then true else if a = b then lexLeB lt as bs else false

/-- The comparison modelling `Vec::sort_by_key` on `path_buf` with
`PathBuf`'s `Ord`: componentwise lexicographic, components compared
byte-lexicographically. -/
def pathLe (a b : FSFile) : Prop :=
  lexLeB strLtB (pathKey a.path_buf) (pathKey b.path_buf) = true

instance : DecidableRel pathLe := fun _ _ =>
  inferInstanceAs (Decidable (_ = true))

/-- `fn read_directory(path: PathBuf, depth: u8) -> Result<FSFile, String>`.

Field-for-field translation of `src/main.rs` lines 79–153:
name resolution (`file_name()` then `to_str()`), metadata, the `depth == 0`
early return, `read_dir`, the hidden filter (`args.all` passed explicitly
instead of through the `ARGS` global), the per-child loop (directories are
recursed into at `depth - 1` and skipped when the recursive call fails;
files are kept when their name decodes; symlinks and other kinds are
skipped; children with unreadable metadata are skipped), and the final
sort by `path_buf`. `Vec::sort_by_key` (a stable sort by key) is modelled
by `List.insertionSort pathLe`, also a stable sort by the same key. -/
def read_directory (fs : Fs) (all : Bool) : Nat → FsPath → Except String FSFile
  | depth, path =>
    match path.getLast? with
    | none => .error "failed to read file name"
    | some n =>
      if n.utf8 then
        match fs.meta path with
        | none => .error "Failed to open metadata"
        | some metadata =>
          match depth with
          | 0 => .ok (.dir n.raw path metadata [])
          | d + 1 =>
            match fs.entries path with
            | none => .error "Failed to read dir"
            | some read_dir =>
              let dir_entry := if all then read_dir else filter_hidden read_dir
              let childs := dir_entry.filterMap fun c =>
                match fs.meta (path ++ [c]) with
                | none => none
                | some cm =>
                  match cm.kind with
                  | FsKind.dir => (read_directory fs all d (path ++ [c])).toOption
                  | FsKind.file =>
                      if c.utf8 then some (FSFile.file c.raw (path ++ [c]) cm) else none
                  | _ => none
              .ok (.dir n.raw path metadata (childs.insertionSort pathLe))
      else .error "Failed to read file name"

/-- The per-child body of `read_directory`'s `for d in dir_entry` loop, as a
standalone function (definitionally equal to the lambda inside
`read_directory`): unreadable metadata is skipped, a directory child is the
recursive result when it succeeds, a file child is kept when its name
decodes, symlinks and other kinds are skipped. -/
def child_step (fs : Fs) (all : Bool) (d : Nat) (path : FsPath) (c : OsName) :
    Option FSFile :=
  match fs.meta (path ++ [c]) with
  | none => none
  | some cm =>
    match cm.kind with
    | FsKind.dir => (read_directory fs all d (path ++ [c])).toOption
    | FsKind.file =>
        if c.utf8 then some (FSFile.file c.raw (path ++ [c]) cm) else none
    | _ => none

/-- The per-child loop body of the fuel-metered recursion below, folded
over the filtered entries from the right: `recf` is the fuel-metered
recursive call; an inner `none` (non-termination within fuel) poisons the
whole accumulator, otherwise the child is kept or skipped exactly as in
`child_step`. -/
def fuel_child_step (fs : Fs) (recf : FsPath → Option (Except String FSFile))
    (path : FsPath) (c : OsName) (acc : Option (List FSFile)) :
    Option (List FSFile) :=
  match acc with
  | none => none
  | some rest =>
    match fs.meta (path ++ [c]) with
    | none => some rest
    | some cm =>
      match cm.kind with
      | FsKind.dir =>
        match recf (path ++ [c]) with
        | none => none
        | some (.ok sub) => some (sub :: rest)
        | some (.error _) => some rest
      | FsKind.file =>
          if c.utf8 then some (FSFile.file c.raw (path ++ [c]) cm :: rest)
          else some rest
      | _ => some rest

/-- The same recursion as `read_directory`, but metered by an explicit
`fuel` budget that every call consumes, independent of the `depth` budget
the program itself consults: `none` means the recursion did not complete
within `fuel` nested calls. Used to state that the program's recursion
terminates, i.e. that the result stabilises as soon as `fuel` exceeds the
depth budget, for every filesystem oracle (even a cyclic one). -/
def read_directory_fuel (fs : Fs) (all : Bool) :
    Nat → Nat → FsPath → Option (Except String FSFile)
  | 0, _, _ => none
  | fuel + 1, depth, path =>
    match path.getLast? with
    | none => some (.error "failed to read file name")
    | some n =>
      if n.utf8 then
        match fs.meta path with
        | none => some (.error "Failed to open metadata")
        | some metadata =>
          match depth with
          | 0 => some (.ok (.dir n.raw path metadata []))
          | d + 1 =>
            match fs.entries path with
            | none => some (.error "Failed to read dir")
            | some read_dir =>
              let dir_entry := if all then read_dir else filter_hidden read_dir
              let childs? := dir_entry.foldr
                (fuel_child_step fs (read_directory_fuel fs all fuel d) path)
                (some [])
              match childs? with
              | none => none
              | some childs =>
                  some (.ok (.dir n.raw path metadata (childs.insertionSort pathLe)))
      else some (.error "Failed to read file name")

/-- The quantity named by the spec's counting property: the number of
entries of `D` that pass the hidden-file filter and have readable
metadata. (Stated from the spec's words, to be compared with what the
builder actually keeps.) -/
def survivorCount (fs : Fs) (all : Bool) (path : FsPath) : Nat :=
  match fs.entries path with
  | none => 0
  | some l =>
    ((if all then l else filter_hidden l).filter
      fun c => (fs.meta (path ++ [c])).isSome).length

/-- The number of entries the builder actually keeps as children at depth
budget `d + 1`: they must pass the hidden filter, have readable metadata,
and be either a directory whose recursive build succeeds or a regular file
whose name decodes; symlinks and other kinds are never kept. -/
def keptChildCount (fs : Fs) (all : Bool) (d : Nat) (path : FsPath) : Nat :=
  match fs.entries path with
  | none => 0
  | some l =>
    ((if all then l else filter_hidden l).countP
      fun c => (child_step fs all d path c).isSome)

mutual

/-- `true` iff the node's `childs` list, and recursively every descendant
directory's `childs` list, is sorted by `pathLe`. -/
def sortedTreeB : FSFile → Bool
  | .file _ _ _ => true
  | .dir _ _ _ cs => sortedByPath cs && sortedForest cs

/-- Every tree of the forest satisfies `sortedTreeB`. -/
def sortedForest : List FSFile → Bool
  | [] => true
  | c :: cs => sortedTreeB c && sortedForest cs

/-- The list is sorted (consecutive pairs related by `pathLe`). -/
def sortedByPath : List FSFile → Bool
  | [] => true
  | [_] => true
  | a :: b :: t => decide (pathLe a b) && sortedByPath (b :: t)

end

mutual

/-- `true` iff no strict descendant of the node has a name starting
with `'.'`. -/
def descendantsOk : FSFile → Bool
  | .file _ _ _ => true
  | .dir _ _ _ cs => forestOk cs

/-- Every tree of the forest has a non-hidden root name and satisfies
`descendantsOk`. -/
def forestOk : List FSFile → Bool
  | [] => true
  | c :: cs => (!startsWithDot c.name) && descendantsOk c && forestOk cs

end

/-- The identity-lookup oracle, modelling `users::UsersCache::get_user_by_uid`
(`none` when the id has no entry); the returned user's `name()` is an
`OsName` whose `utf8` flag records whether `.to_str()` succeeds. -/
abbrev UsersCache := Nat → Option OsName

/-- `fn parse_dir_entry(fs_file: &FSFile) -> Result<String, String>`
(`src/main.rs` lines 288–352), including its exact mask/letter pairings
(`ue`/`ur`/`uw`/… with masks `0o100`/`0o200`/`0o400`/…) and push order, and
its use of `get_user_by_uid` for both the uid and the gid. -/
def parse_dir_entry (cache : UsersCache) (fs_file : FSFile) : Except String String :=
  let metadata := fs_file.metadata
  let name := fs_file.name
  let d := if metadata.kind = FsKind.dir then "d" else "-"
  let mode := metadata.mode
  let ue := if mode &&& 0o100 > 0 then "x" else "-"
  let ur := if mode &&& 0o200 > 0 then "r" else "-"
  let uw := if mode &&& 0o400 > 0 then "w" else "-"
  let ge := if mode &&& 0o010 > 0 then "x" else "-"
  let gr := if mode &&& 0o020 > 0 then "r" else "-"
  let gw := if mode &&& 0o040 > 0 then "w" else "-"
  let ae := if mode &&& 0o001 > 0 then "x" else "-"
  let ar := if mode &&& 0o002 > 0 then "r" else "-"
  let aw := if mode &&& 0o004 > 0 then "w" else "-"
  let modes := d ++ ue ++ ur ++ uw ++ ge ++ gr ++ gw ++ ae ++ ar ++ aw
  match cache metadata.uid with
  | none => .error "Owner"
  | some usr =>
    if usr.utf8 then
      match cache metadata.gid with
      | none => .error "Group"
      | some grp =>
        if grp.utf8 then
          .ok (modes ++ "\t" ++ usr.raw ++ "\t" ++ grp.raw ++ "\t" ++
            toString metadata.size ++ "\t" ++ "\t" ++ name ++ "\n")
        else .error "group"
    else .error "Owner"

/-- `fn print_dir<W>(w, fs_file) -> Result<(), String>`: one row per
immediate child (detailed via `parse_dir_entry` when `args.list`, else the
name and a tab), concatenated in order; a `parse_dir_entry` failure is
propagated by `?`, aborting the row loop. A `File` argument only logs
(`error!`) and prints nothing. The result is the string queued to the
writer. -/
def print_dir (args : LsArgs) (cache : UsersCache) (fs_file : FSFile) :
    Except String String :=
  match fs_file with
  | .dir _ _ _ childs =>
    childs.foldlM (fun acc child => do
      let output_string ←
        if args.list then parse_dir_entry cache child
        else pure (child.name ++ "\t")
      pure (acc ++ output_string)) ""
  | .file _ _ _ => .ok ""

mutual

/-- `fn print_dir_rec<W>(w, fs_file, depth) -> Result<(), String>`
(`src/main.rs` lines 233–286): returns at once when `args.tree <= depth`;
otherwise renders the children of a `Dir` node (a `File` argument only
logs). The writer contents are returned; the only fallible operations in
the source are writer I/O (and the recursive call's result is discarded
with `let _`), so the model is total. -/
def print_dir_rec (args : LsArgs) (fs_file : FSFile) (depth : Nat) : String :=
  if args.tree ≤ depth then ""
  else
    match fs_file with
    | .dir _ _ _ childs =>
      print_childs args depth (String.join (List.replicate depth "|  ")) childs
    | .file _ _ _ => ""

/-- The `while let Some(child) = it.next()` loop of `print_dir_rec`:
`last` is `it.peek().is_none()`; a `File` child gets `LAST_SIGN` when last,
a `Dir` child gets `LAST_SIGN` only when last *and* its `childs` is empty,
and a `Dir` child is recursed into at `depth + 1` after its own line. -/
def print_childs (args : LsArgs) (depth : Nat) (indent : String) :
    List FSFile → String
  | [] => ""
  | child :: rest =>
    let last := rest.isEmpty
    match child with
    | .file nm _ _ =>
      let pfx := indent ++ (if last then LAST_SIGN else ITEM_SIGN)
      pfx ++ nm ++ "\n" ++ print_childs args depth indent rest
    | .dir nm p m cs =>
      let pfx := indent ++ (if last && cs.isEmpty then LAST_SIGN else ITEM_SIGN)
      pfx ++ nm ++ "\n" ++ print_dir_rec args (.dir nm p m cs) (depth + 1) ++
        print_childs args depth indent rest

end

/-- The header row `println!("Mode\t\t user\t group\t size\t\t name")`. -/
def header : String := "Mode\t\t user\t group\t size\t\t name\n"

/-- `fn list(fs_file: &FSFile) -> Result<(), String>` (`src/main.rs` lines
177–202). The first component is the bytes written to stdout, the second
the `warn!` diagnostics emitted. When `args.list && args.tree > 1`, the
warning is logged, the header printed, and `print_dir` (flat detailed)
used; otherwise the header is printed when `args.list`, and `args.tree > 1`
selects `print_dir_rec` over `print_dir`. A final newline is queued on
every successful path. -/
def list (args : LsArgs) (cache : UsersCache) (fs_file : FSFile) :
    Except String String × List String :=
  if args.list ∧ args.tree > 1 then
    ((print_dir args cache fs_file).map fun body => header ++ body ++ "\n",
      ["Cannot display list and tree, will do list"])
  else
    let hdr := if args.list then header else ""
    if args.tree > 1 then
      (.ok (hdr ++ print_dir_rec args fs_file 0 ++ "\n"), [])
    else
      ((print_dir args cache fs_file).map fun body => hdr ++ body ++ "\n", [])

/-- Marker rule actually implemented for a *last* sibling: terminal for a
file and for a directory with no children, continuing for a directory with
children. -/
def terminalLike : FSFile → Bool
  | .file _ _ _ => true
  | .dir _ _ _ cs => cs.isEmpty

/-- What a child contributes below its own line in tree mode: nothing for
a file, the recursive rendering at `depth + 1` for a directory. -/
def subRender (args : LsArgs) (depth : Nat) : FSFile → String
  | .file _ _ _ => ""
  | .dir nm p m cs => print_dir_rec args (.dir nm p m cs) (depth + 1)

/-! Concrete fixtures used by counterexamples and witnesses. -/

/-- Metadata of a regular file with permission bits `rwxr-xr--` (0o754),
uid = gid = 1000, size 42. -/
def exMetaFile : FsMeta := ⟨FsKind.file, 0o754, 1000, 1000, 42⟩

/-- Metadata of a directory with permission bits `rwxr-xr--` (0o754). -/
def exMetaDir : FsMeta := ⟨FsKind.dir, 0o754, 1000, 1000, 4096⟩

/-- Metadata of a symlink. -/
def exMetaSym : FsMeta := ⟨FsKind.symlink, 0o777, 1000, 1000, 1⟩

/-- Metadata of a file owned by uid 7 / gid 7. -/
def exMetaUid7 : FsMeta := ⟨FsKind.file, 0o644, 7, 7, 1⟩

/-- An identity oracle that resolves every id to the user `"user"`. -/
def exCache : UsersCache := fun _ => some ⟨"user", true⟩

/-- An identity oracle with no entry for id 7 and `"user"` for the rest. -/
def exCacheNo7 : UsersCache := fun uid => if uid = 7 then none else some ⟨"user", true⟩

/-- A root directory `r` whose sole entry `s` is a symlink. -/
def symFs : Fs :=
  ⟨fun p =>
      if p = [⟨"r", true⟩] then some exMetaDir
      else if p = [⟨"r", true⟩, ⟨"s", true⟩] then some exMetaSym
      else none,
    fun p => if p = [⟨"r", true⟩] then some [⟨"s", true⟩] else none⟩

/-- A root directory `r` listing the regular files `b` and `a`, in that
(discovery) order, plus a hidden file `.h`. -/
def exFs2 : Fs :=
  ⟨fun p =>
      if p = [⟨"r", true⟩] then some exMetaDir
      else if p = [⟨"r", true⟩, ⟨"a", true⟩] then some exMetaFile
      else if p = [⟨"r", true⟩, ⟨"b", true⟩] then some exMetaFile
      else if p = [⟨"r", true⟩, ⟨".h", true⟩] then some exMetaFile
      else none,
    fun p =>
      if p = [⟨"r", true⟩] then some [⟨"b", true⟩, ⟨"a", true⟩, ⟨".h", true⟩]
      else none⟩

/-- A snapshot whose last child is a directory that itself has a child:
`r` contains the file `a` and the directory `b`, and `b` contains the
file `c`. -/
def exTreeLastDir : FSFile :=
  .dir "r" [⟨"r", true⟩] exMetaDir
    [.file "a" [⟨"r", true⟩, ⟨"a", true⟩] exMetaFile,
     .dir "b" [⟨"r", true⟩, ⟨"b", true⟩] exMetaDir
       [.file "c" [⟨"r", true⟩, ⟨"b", true⟩, ⟨"c", true⟩] exMetaFile]]

/-- A snapshot of a directory with two regular files, the first owned by
uid 7. -/
def exTreeUid7 : FSFile :=
  .dir "r" [⟨"r", true⟩] exMetaDir
    [.file "a" [⟨"r", true⟩, ⟨"a", true⟩] exMetaUid7,
     .file "b" [⟨"r", true⟩, ⟨"b", true⟩] exMetaFile]

/-! Unfolding and inversion lemmas for `read_directory`. -/

theorem read_directory_zero (fs : Fs) (all : Bool) (path : FsPath) :
    read_directory fs all 0 path =
      match path.getLast? with
      | none => .error "failed to read file name"
      | some n =>
        if n.utf8 then
          match fs.meta path with
          | none => .error "Failed to open metadata"
          | some metadata => .ok (.dir n.raw path metadata [])
        else .error "Failed to read file name" := by
  rw [read_directory]

theorem read_directory_succ (fs : Fs) (all : Bool) (d : Nat) (path : FsPath) :
    read_directory fs all (d + 1) path =
      match path.getLast? with
      | none => .error "failed to read file name"
      | some n =>
        if n.utf8 then
          match fs.meta path with
          | none => .error "Failed to open metadata"
          | some metadata =>
            match fs.entries path with
            | none => .error "Failed to read dir"
            | some read_dir =>
              .ok (.dir n.raw path metadata
                (((if all then read_dir else filter_hidden read_dir).filterMap
                    (child_step fs all d path)).insertionSort pathLe))
        else .error "Failed to read file name" := by
  rw [read_directory]
  rfl

theorem read_directory_zero_ok {fs : Fs} {all : Bool} {path : FsPath} {f : FSFile}
    (h : read_directory fs all 0 path = .ok f) :
    ∃ n m, path.getLast? = some n ∧ n.utf8 = true ∧ fs.meta path = some m ∧
      f = .dir n.raw path m [] := by
  rw [read_directory_zero] at h
  split at h
  · cases h
  next n hn =>
    split at h
    next hu =>
      split at h
      · cases h
      next m hm => exact ⟨n, m, hn, hu, hm, (Except.ok.inj h).symm⟩
    next hu => cases h

theorem read_directory_succ_ok {fs : Fs} {all : Bool} {d : Nat} {path : FsPath}
    {f : FSFile} (h : read_directory fs all (d + 1) path = .ok f) :
    ∃ n m l, path.getLast? = some n ∧ n.utf8 = true ∧ fs.meta path = some m ∧
      fs.entries path = some l ∧
      f = .dir n.raw path m
        (((if all then l else filter_hidden l).filterMap
            (child_step fs all d path)).insertionSort pathLe) := by
  rw [read_directory_succ] at h
  split at h
  · cases h
  next n hn =>
    split at h
    next hu =>
      split at h
      · cases h
      next m hm =>
        split at h
        · cases h
        next l hl => exact ⟨n, m, l, hn, hu, hm, hl, (Except.ok.inj h).symm⟩
    next hu => cases h

/-- `print_dir` reads nothing from `args` except `list`, so the configured
tree depth cannot change its output. -/
theorem print_dir_only_reads_list (args args' : LsArgs) (h : args.list = args'.list)
    (cache : UsersCache) (fs_file : FSFile) :
    print_dir args cache fs_file = print_dir args' cache fs_file := by
  cases fs_file with
  | file n p m => rfl
  | dir n p m cs => simp only [print_dir, h]

/-- C1: the permission-string formatter is wrong in the code. For mode bits
`0o754` (`rwxr-xr--`) on a regular file, `parse_dir_entry` renders the
10-character prefix `"-xrwx-w--w"`, not `"-rwxr-xr--"` as the spec states
(and `"dxrwx-w--w"` for a directory): the letters are emitted in the order
execute, read, write, and the read/write masks are swapped (`0o200`, the
write bit, is rendered as `r`; `0o400`, the read bit, as `w`). -/
theorem C1_permission_string_failing_eval :
    parse_dir_entry exCache (.file "a" [⟨"a", true⟩] exMetaFile) =
      .ok "-xrwx-w--w\tuser\tuser\t42\t\ta\n" ∧
    parse_dir_entry exCache (.dir "a" [⟨"a", true⟩] exMetaDir []) =
      .ok "dxrwx-w--w\tuser\tuser\t4096\t\ta\n" ∧
    "-xrwx-w--w" ≠ "-rwxr-xr--" ∧ "dxrwx-w--w" ≠ "drwxr-xr--" :=
  ⟨rfl, rfl, by decide, by decide⟩

/-- C2: an unresolvable owner id is not a per-entry recoverable error in
the code. On a directory with two files whose first is owned by uid 7,
with an identity oracle that cannot resolve id 7 but resolves everything
else, the whole detailed listing (`print_dir`, and `list` in detailed
mode) aborts with `Err("Owner")`; the second entry, though renderable on
its own (third conjunct), is never rendered. -/
theorem C2_unresolvable_owner_aborts_listing :
    print_dir ⟨true, false, 1⟩ exCacheNo7 exTreeUid7 = .error "Owner" ∧
    (list ⟨true, false, 1⟩ exCacheNo7 exTreeUid7).1 = .error "Owner" ∧
    parse_dir_entry exCacheNo7 (.file "b" [⟨"r", true⟩, ⟨"b", true⟩] exMetaFile) =
      .ok "-xrwx-w--w\tuser\tuser\t42\t\tb\n" :=
  ⟨rfl, rfl, rfl⟩

theorem join_cons (s : String) (l : List String) :
    String.join (s :: l) = s ++ String.join l := by
  simp [String.join_eq]
  rfl

theorem join_nil : String.join ([] : List String) = "" := rfl

/-- C3 counterexample: in the tree `r ⊢ [file a, dir b [file c]]` rendered
with depth budget 3, the last sibling `b` — a directory with children —
receives the continuing marker `|-`, not the terminal marker `|_` the
claim requires for every last entry. -/
theorem C3_counterexample :
    print_dir_rec ⟨false, false, 3⟩ exTreeLastDir 0 = "|-a\n|-b\n|  |_c\n" ∧
    "|-a\n|-b\n|  |_c\n" ≠ "|-a\n|_b\n|  |_c\n" :=
  ⟨rfl, by decide⟩

/-- C3 as amended: in any children sequence, every non-last entry receives
the continuing marker, and the last entry receives the terminal marker
exactly when it is a file or a directory with no children (`terminalLike`);
a last directory with children receives the continuing marker. Each line
is the level's indent, the marker, the name, and — for directories — the
recursive rendering below it. -/
theorem C3_amended_markers (args : LsArgs) (depth : Nat) (indent : String)
    (cs : List FSFile) (c : FSFile) :
    print_childs args depth indent (cs ++ [c]) =
      String.join (cs.map fun x =>
        indent ++ ITEM_SIGN ++ x.name ++ "\n" ++ subRender args depth x) ++
      (indent ++ (if terminalLike c then LAST_SIGN else ITEM_SIGN) ++ c.name ++ "\n" ++
        subRender args depth c) := by
  induction cs with
  | nil =>
    cases c with
    | file nm p m =>
      simp [print_childs, terminalLike, subRender, FSFile.name, String.append_assoc,
        join_nil]
    | dir nm p m cs' =>
      cases cs' with
      | nil =>
        simp [print_childs, terminalLike, subRender, FSFile.name, String.append_assoc,
          join_nil]
      | cons y ys =>
        simp [print_childs, terminalLike, subRender, FSFile.name, String.append_assoc,
          join_nil]
  | cons x xs ih =>
    cases x with
    | file nm p m =>
      simp [print_childs, join_cons, ih, FSFile.name, subRender, String.append_assoc]
    | dir nm p m cs' =>
      simp [print_childs, join_cons, ih, FSFile.name, subRender, String.append_assoc]

/-- C5: requesting detailed mode together with a tree depth above 1
degrades to the detailed flat listing: the output and the success/failure
outcome are exactly those of the same configuration with depth 1 (detailed
takes precedence over tree), and the only difference is the warning
diagnostic that is emitted. In particular the combination itself never
produces an error. -/
theorem C5_detailed_tree_conflict_degrades (args : LsArgs) (cache : UsersCache)
    (fs_file : FSFile) (hl : args.list = true) (ht : 1 < args.tree) :
    list args cache fs_file =
      ((list ⟨args.list, args.all, 1⟩ cache fs_file).1,
        ["Cannot display list and tree, will do list"]) := by
  have hpd := print_dir_only_reads_list args ⟨args.list, args.all, 1⟩ rfl cache fs_file
  simp [list, hl, ht, hpd]

/-- Witness for C5 at a concrete configuration and tree. -/
theorem C5_witness :
    list ⟨true, false, 2⟩ exCache exTreeLastDir =
      ((list ⟨true, false, 1⟩ exCache exTreeLastDir).1,
        ["Cannot display list and tree, will do list"]) :=
  C5_detailed_tree_conflict_degrades ⟨true, false, 2⟩ exCache exTreeLastDir rfl
    (by decide)

/-- C8: with a zero depth budget, `read_directory` still succeeds on any
path whose name resolves (`getLast?` is `some n` with `n` UTF-8-decodable)
and whose metadata is readable, returning a `Dir` entry carrying that name
and metadata and an empty children sequence. -/
theorem C8_depth_zero_returns_empty_dir (fs : Fs) (all : Bool) (path : FsPath)
    (n : OsName) (m : FsMeta) (hn : path.getLast? = some n) (hu : n.utf8 = true)
    (hm : fs.meta path = some m) :
    read_directory fs all 0 path = .ok (.dir n.raw path m []) := by
  rw [read_directory_zero, hn]
  simp [hu, hm]

/-- Witness for C8 on a concrete filesystem. -/
theorem C8_witness :
    read_directory exFs2 true 0 [⟨"r", true⟩] =
      .ok (.dir "r" [⟨"r", true⟩] exMetaDir []) :=
  C8_depth_zero_returns_empty_dir exFs2 true [⟨"r", true⟩] ⟨"r", true⟩ exMetaDir
    rfl rfl rfl

/-- C10: whenever `read_directory` succeeds, the returned root entry is a
`Dir` node — never a `File` — at every depth budget including zero. -/
theorem C10_success_root_is_dir (fs : Fs) (all : Bool) (depth : Nat) (path : FsPath)
    (f : FSFile) (h : read_directory fs all depth path = .ok f) : f.isDir = true := by
  cases depth with
  | zero =>
    obtain ⟨n, m, -, -, -, rfl⟩ := read_directory_zero_ok h
    rfl
  | succ d =>
    obtain ⟨n, m, l, -, -, -, -, rfl⟩ := read_directory_succ_ok h
    rfl

/-- Witness for C10 on a concrete filesystem. -/
theorem C10_witness : (FSFile.dir "r" [⟨"r", true⟩] exMetaDir []).isDir = true :=
  C10_success_root_is_dir symFs false 1 [⟨"r", true⟩]
    (FSFile.dir "r" [⟨"r", true⟩] exMetaDir []) rfl




theorem charLtB_irrefl (a : Char) : charLtB a a = false := by
  simp [charLtB]

theorem charLtB_trans {a b c : Char} (h1 : charLtB a b = true)
    (h2 : charLtB b c = true) : charLtB a c = true := by
  simp only [charLtB, decide_eq_true_eq] at *
  omega

theorem charLtB_conn {a b : Char} (h : charLtB a b = false) (hne : a ≠ b) :
    charLtB b a = true := by
  simp only [charLtB, decide_eq_false_iff_not, decide_eq_true_eq, Nat.not_lt] at *
  rcases Nat.lt_or_ge b.toNat a.toNat with hlt | hge
  · exact hlt
  · exfalso
    exact hne (by simpa [Char.ext_iff, UInt32.ext_iff, Char.toNat, UInt32.toNat]
      using Nat.le_antisymm hge h)

theorem lexLtB_irrefl {α : Type} [DecidableEq α] (lt : α → α → Bool)
    (hirr : ∀ a, lt a a = false) : ∀ x, lexLtB lt x x = false
  | [] => rfl
  | a :: as => by
    simp [lexLtB, hirr a, lexLtB_irrefl lt hirr as]

theorem lexLtB_trans {α : Type} [DecidableEq α] (lt : α → α → Bool)
    (hirr : ∀ a, lt a a = false)
    (htr : ∀ a b c, lt a b = true → lt b c = true → lt a c = true) :
    ∀ x y z, lexLtB lt x y = true → lexLtB lt y z = true → lexLtB lt x z = true
  | [], [], z, _, h2 => h2
  | [], _ :: _, _ :: _, _, _ => rfl
  | [], _ :: _, [], _, h2 => by cases h2
  | _ :: _, [], _, h1, _ => by cases h1
  | _ :: _, _ :: _, [], _, h2 => by cases h2
  | a :: as, b :: bs, c :: cs, h1, h2 => by
    simp only [lexLtB] at h1 h2 ⊢
    by_cases hab : lt a b = true
    · by_cases hbc : lt b c = true
      · simp [htr a b c hab hbc]
      · by_cases hbce : b = c
        · subst hbce
          simp [hab]
        · simp [hbc, hbce] at h2
    · by_cases habe : a = b
      · subst habe
        rw [hirr a, if_neg (by simp), if_pos rfl] at h1
        by_cases hac : lt a c = true
        · simp [hac]
        · by_cases hace : a = c
          · subst hace
            rw [hirr a, if_neg (by simp), if_pos rfl] at h2 ⊢
            exact lexLtB_trans lt hirr htr as bs cs h1 h2
          · simp [hac, hace] at h2
      · simp [hab, habe] at h1

theorem lexLtB_conn {α : Type} [DecidableEq α] (lt : α → α → Bool)
    (hconn : ∀ a b, lt a b = false → a ≠ b → lt b a = true) :
    ∀ x y, lexLtB lt x y = false → x ≠ y → lexLtB lt y x = true
  | [], [], _, hne => absurd rfl hne
  | [], _ :: _, h, _ => by cases h
  | _ :: _, [], _, _ => rfl
  | a :: as, b :: bs, h, hne => by
    simp only [lexLtB] at h ⊢
    by_cases hab : lt a b = true
    · simp [hab] at h
    · by_cases habe : a = b
      · subst habe
        rw [if_neg (by simp [hab]), if_pos rfl] at h
        rw [if_neg (by simp [hab]), if_pos rfl]
        exact lexLtB_conn lt hconn as bs h (fun ht => hne (by rw [ht]))
      · have hba : lt b a = true :=
          hconn a b (by simpa using hab) habe
        simp [hba]



theorem lexLeB_total {α : Type} [DecidableEq α] (lt : α → α → Bool)
    (hconn : ∀ a b, lt a b = false → a ≠ b → lt b a = true) :
    ∀ x y, lexLeB lt x y = true ∨ lexLeB lt y x = true
  | [], _ => .inl rfl
  | _ :: _, [] => .inr rfl
  | a :: as, b :: bs => by
    by_cases hab : lt a b = true
    · exact .inl (by simp [lexLeB, hab])
    · by_cases habe : a = b
      · subst habe
        by_cases haa : lt a a = true
        · exact .inl (by simp [lexLeB, haa])
        · rcases lexLeB_total lt hconn as bs with h | h
          · exact .inl (by simp [lexLeB, haa, h])
          · exact .inr (by simp [lexLeB, haa, h])
      · have hba : lt b a = true := hconn a b (by simpa using hab) habe
        exact .inr (by simp [lexLeB, hba])

theorem lexLeB_trans {α : Type} [DecidableEq α] (lt : α → α → Bool)
    (hirr : ∀ a, lt a a = false)
    (htr : ∀ a b c, lt a b = true → lt b c = true → lt a c = true) :
    ∀ x y z, lexLeB lt x y = true → lexLeB lt y z = true → lexLeB lt x z = true
  | [], _, _, _, _ => rfl
  | _ :: _, [], _, h1, _ => by cases h1
  | _ :: _, _ :: _, [], _, h2 => by cases h2
  | a :: as, b :: bs, c :: cs, h1, h2 => by
    simp only [lexLeB] at h1 h2 ⊢
    by_cases hab : lt a b = true
    · by_cases hbc : lt b c = true
      · simp [htr a b c hab hbc]
      · by_cases hbce : b = c
        · subst hbce
          simp [hab]
        · simp [hbc, hbce] at h2
    · by_cases habe : a = b
      · subst habe
        rw [hirr a, if_neg (by simp), if_pos rfl] at h1
        by_cases hac : lt a c = true
        · simp [hac]
        · by_cases hace : a = c
          · subst hace
            rw [hirr a, if_neg (by simp), if_pos rfl] at h2 ⊢
            exact lexLeB_trans lt hirr htr as bs cs h1 h2
          · simp [hac, hace] at h2
      · simp [hab, habe] at h1

theorem strLtB_irrefl (s : String) : strLtB s s = false :=
  lexLtB_irrefl charLtB charLtB_irrefl s.data

theorem strLtB_trans {a b c : String} (h1 : strLtB a b = true)
    (h2 : strLtB b c = true) : strLtB a c = true :=
  lexLtB_trans charLtB charLtB_irrefl (fun _ _ _ => charLtB_trans)
    a.data b.data c.data h1 h2

theorem string_data_inj {a b : String} (h : a.data = b.data) : a = b := by
  cases a
  cases b
  exact congrArg String.mk h

theorem strLtB_conn {a b : String} (h : strLtB a b = false) (hne : a ≠ b) :
    strLtB b a = true :=
  lexLtB_conn charLtB (fun _ _ => charLtB_conn) a.data b.data h
    (fun hd => hne (string_data_inj hd))

theorem pathLe_total (a b : FSFile) : pathLe a b ∨ pathLe b a :=
  lexLeB_total strLtB (fun _ _ => strLtB_conn) _ _

theorem pathLe_trans {a b c : FSFile} (h1 : pathLe a b) (h2 : pathLe b c) :
    pathLe a c :=
  lexLeB_trans strLtB strLtB_irrefl (fun _ _ _ => strLtB_trans) _ _ _ h1 h2



theorem sortedByPath_of_sorted : ∀ {l : List FSFile}, List.Sorted pathLe l →
    sortedByPath l = true
  | [], _ => rfl
  | [_], _ => rfl
  | a :: b :: t, h => by
    have hab : pathLe a b := List.rel_of_sorted_cons h b (by simp)
    have ht : List.Sorted pathLe (b :: t) := h.of_cons
    simp [sortedByPath, hab, sortedByPath_of_sorted ht]

theorem sortedForest_iff {l : List FSFile} :
    sortedForest l = true ↔ ∀ c ∈ l, sortedTreeB c = true := by
  induction l with
  | nil => simp [sortedForest]
  | cons c t ih =>
    simp [sortedForest, Bool.and_eq_true, ih, List.forall_mem_cons]

theorem sorted_insertion_pathLe (l : List FSFile) :
    List.Sorted pathLe (l.insertionSort pathLe) := by
  haveI : IsTotal FSFile pathLe := ⟨pathLe_total⟩
  haveI : IsTrans FSFile pathLe := ⟨fun _ _ _ => pathLe_trans⟩
  exact List.sorted_insertionSort pathLe l

theorem length_filterMap_eq_countP {α β : Type} (f : α → Option β) (l : List α) :
    (l.filterMap f).length = l.countP fun a => (f a).isSome := by
  induction l with
  | nil => rfl
  | cons a l ih =>
    cases h : f a <;> simp [List.filterMap_cons, h, List.countP_cons, ih]

/-- C4 counterexample: a directory whose sole entry is a symlink. The
entry passes the hidden filter and its metadata is readable, so the count
named by the claim is 1, but the builder keeps no children (symlinks are
dropped by the kind dispatch), so the built children count is 0. -/
theorem C4_counterexample :
    read_directory symFs false 1 [⟨"r", true⟩] =
      .ok (.dir "r" [⟨"r", true⟩] exMetaDir []) ∧
    survivorCount symFs false [⟨"r", true⟩] = 1 ∧
    (FSFile.dir "r" [⟨"r", true⟩] exMetaDir []).childs.length = 0 ∧ (0 : Nat) ≠ 1 :=
  ⟨rfl, rfl, rfl, by decide⟩

/-- C4 as amended: at depth budget `d + 1`, the number of children of a
successfully built directory equals the number of its entries that pass
the hidden filter, have readable metadata, *and* are kept by the kind
dispatch — directories whose recursive build succeeds or regular files
with a decodable name; symlinks and other kinds are dropped. -/
theorem C4_amended_child_count (fs : Fs) (all : Bool) (d : Nat) (path : FsPath)
    (f : FSFile) (h : read_directory fs all (d + 1) path = .ok f) :
    f.childs.length = keptChildCount fs all d path := by
  obtain ⟨n, m, l, -, -, -, hl, rfl⟩ := read_directory_succ_ok h
  simp only [FSFile.childs, keptChildCount, hl, List.length_insertionSort,
    length_filterMap_eq_countP]

/-- Witness for C4 (amended) on a concrete filesystem with two plain files
and a hidden file. -/
theorem C4_witness :
    (FSFile.dir "r" [⟨"r", true⟩] exMetaDir
      [.file "a" [⟨"r", true⟩, ⟨"a", true⟩] exMetaFile,
       .file "b" [⟨"r", true⟩, ⟨"b", true⟩] exMetaFile]).childs.length =
      keptChildCount exFs2 false 0 [⟨"r", true⟩] :=
  C4_amended_child_count exFs2 false 0 [⟨"r", true⟩] _ rfl

/-- C6: every successfully built tree has, at every level independently,
its children sorted by full path in ascending componentwise
byte-lexicographic order: the builder sorts each directory's collected
children before returning it, so the invariant holds for the snapshot all
render modes consume. -/
theorem C6_children_sorted (fs : Fs) (all : Bool) (depth : Nat) (path : FsPath)
    (f : FSFile) (h : read_directory fs all depth path = .ok f) :
    sortedTreeB f = true := by
  induction depth generalizing path f with
  | zero =>
    obtain ⟨n, m, -, -, -, rfl⟩ := read_directory_zero_ok h
    rfl
  | succ d ih =>
    obtain ⟨n, m, l, -, -, -, -, rfl⟩ := read_directory_succ_ok h
    have hforest : ∀ c ∈ ((if all then l else filter_hidden l).filterMap
        (child_step fs all d path)).insertionSort pathLe, sortedTreeB c = true := by
      intro c hc
      rw [List.mem_insertionSort] at hc
      obtain ⟨a, _, hstep⟩ := List.mem_filterMap.mp hc
      unfold child_step at hstep
      split at hstep
      · cases hstep
      · split at hstep
        · cases hrec : read_directory fs all d (path ++ [a]) with
          | error e => rw [hrec] at hstep; cases hstep
          | ok g =>
            rw [hrec] at hstep
            cases hstep
            exact ih _ _ hrec
        · split at hstep
          · cases hstep
            rfl
          · cases hstep
        · cases hstep
    simp only [sortedTreeB, Bool.and_eq_true]
    exact ⟨sortedByPath_of_sorted (sorted_insertion_pathLe _),
      sortedForest_iff.mpr hforest⟩

/-- Witness for C6: the children `b, a` are discovered out of order and
come back path-sorted. -/
theorem C6_witness :
    sortedTreeB (FSFile.dir "r" [⟨"r", true⟩] exMetaDir
      [.file "a" [⟨"r", true⟩, ⟨"a", true⟩] exMetaFile,
       .file "b" [⟨"r", true⟩, ⟨"b", true⟩] exMetaFile]) = true :=
  C6_children_sorted exFs2 false 1 [⟨"r", true⟩] _ rfl




theorem forestOk_iff {l : List FSFile} :
    forestOk l = true ↔
      ∀ c ∈ l, startsWithDot c.name = false ∧ descendantsOk c = true := by
  induction l with
  | nil => simp [forestOk]
  | cons c t ih =>
    simp [forestOk, ih, List.forall_mem_cons, Bool.and_eq_true, Bool.not_eq_true']

theorem mem_filter_hidden {a : OsName} {l : List OsName} (h : a ∈ filter_hidden l) :
    a.utf8 = true ∧ startsWithDot a.raw = false := by
  unfold filter_hidden at h
  obtain ⟨b, _, hstep⟩ := List.mem_filterMap.mp h
  split at hstep
  next hu =>
    split at hstep
    · cases hstep
    next hd =>
      cases hstep
      exact ⟨hu, by simpa using hd⟩
  · cases hstep

theorem read_directory_ok_name {fs : Fs} {all : Bool} {depth : Nat} {path : FsPath}
    {f : FSFile} (h : read_directory fs all depth path = .ok f) :
    ∃ n, path.getLast? = some n ∧ f.name = n.raw := by
  cases depth with
  | zero =>
    obtain ⟨n, m, hn, -, -, rfl⟩ := read_directory_zero_ok h
    exact ⟨n, hn, rfl⟩
  | succ d =>
    obtain ⟨n, m, l, hn, -, -, -, rfl⟩ := read_directory_succ_ok h
    exact ⟨n, hn, rfl⟩

theorem build_hidden_free (fs : Fs) (depth : Nat) (path : FsPath) (f : FSFile)
    (h : read_directory fs false depth path = .ok f) : descendantsOk f = true := by
  induction depth generalizing path f with
  | zero =>
    obtain ⟨n, m, -, -, -, rfl⟩ := read_directory_zero_ok h
    rfl
  | succ d ih =>
    obtain ⟨n, m, l, -, -, -, -, rfl⟩ := read_directory_succ_ok h
    simp only [descendantsOk]
    rw [forestOk_iff]
    intro c hc
    rw [List.mem_insertionSort] at hc
    simp only [Bool.false_eq_true, if_false] at hc
    obtain ⟨a, ha, hstep⟩ := List.mem_filterMap.mp hc
    have hattr := mem_filter_hidden ha
    unfold child_step at hstep
    split at hstep
    · cases hstep
    · split at hstep
      · cases hrec : read_directory fs false d (path ++ [a]) with
        | error e => rw [hrec] at hstep; cases hstep
        | ok g =>
          rw [hrec] at hstep
          cases hstep
          obtain ⟨n', hn', hname⟩ := read_directory_ok_name hrec
          rw [List.getLast?_concat] at hn'
          cases hn'
          refine ⟨by rw [hname]; exact hattr.2, ih _ _ hrec⟩
      · split at hstep
        · cases hstep
          exact ⟨hattr.2, rfl⟩
        · cases hstep
      · cases hstep



theorem read_directory_entries_congr (fs₁ fs₂ : Fs) (hm : fs₁.meta = fs₂.meta)
    (he : ∀ p, (fs₁.entries p).map filter_hidden = (fs₂.entries p).map filter_hidden) :
    ∀ depth path, read_directory fs₁ false depth path =
      read_directory fs₂ false depth path := by
  intro depth
  induction depth with
  | zero =>
    intro path
    rw [read_directory_zero, read_directory_zero, hm]
  | succ d ih =>
    intro path
    rw [read_directory_succ, read_directory_succ, hm]
    cases hn : path.getLast? with
    | none => rfl
    | some n =>
      refine if_congr Iff.rfl ?_ rfl
      cases hmm : fs₂.meta path with
        | none => rfl
        | some m =>
          have hep := he path
          cases h1 : fs₁.entries path with
          | none =>
            cases h2 : fs₂.entries path with
            | none => rfl
            | some l2 => rw [h1, h2] at hep; cases hep
          | some l1 =>
            cases h2 : fs₂.entries path with
            | none => rw [h1, h2] at hep; cases hep
            | some l2 =>
              rw [h1, h2] at hep
              simp only [Option.map_some'] at hep
              injection hep with hep
              have hcs : child_step fs₁ false d path = child_step fs₂ false d path := by
                funext c
                unfold child_step
                rw [hm, ih (path ++ [c])]
              simp only [Bool.false_eq_true, if_false, hep, hcs]

theorem filter_hidden_drops_dot {e : OsName} (hdot : startsWithDot e.raw = true)
    (pre post : List OsName) :
    filter_hidden (pre ++ e :: post) = filter_hidden (pre ++ post) := by
  unfold filter_hidden
  rw [List.filterMap_append, List.filterMap_append, List.filterMap_cons]
  cases hu : e.utf8 <;> simp [hu, hdot]

theorem hidden_entry_invisible (fs : Fs) (p : FsPath) (pre post : List OsName)
    (e : OsName) (hdot : startsWithDot e.raw = true) (depth : Nat) (root : FsPath) :
    read_directory ⟨fs.meta, Function.update fs.entries p (some (pre ++ e :: post))⟩
        false depth root =
      read_directory ⟨fs.meta, Function.update fs.entries p (some (pre ++ post))⟩
        false depth root := by
  refine read_directory_entries_congr
    ⟨fs.meta, Function.update fs.entries p (some (pre ++ e :: post))⟩
    ⟨fs.meta, Function.update fs.entries p (some (pre ++ post))⟩ rfl ?_ depth root
  intro q
  by_cases hq : q = p
  · subst hq
    simp only [Function.update_same]
    simp [filter_hidden_drops_dot hdot]
  · simp only [Function.update_noteq hq]



/-- C7: with `include_hidden = false`, a hidden entry (name starting with
`'.'`) contributes nothing: (1) no strict descendant of a successfully
built tree has a name starting with `'.'`; and (2) inserting a hidden
entry into any directory's listing — whatever subtree may hang below it —
leaves the result of `read_directory` unchanged at every root and depth,
i.e. the entry is dropped before its kind is inspected or any recursion
into it happens. -/
theorem C7_hidden_dropped_before_inspection :
    (∀ (fs : Fs) (depth : Nat) (path : FsPath) (f : FSFile),
      read_directory fs false depth path = .ok f → descendantsOk f = true) ∧
    (∀ (fs : Fs) (p : FsPath) (pre post : List OsName) (e : OsName),
      startsWithDot e.raw = true → ∀ (depth : Nat) (root : FsPath),
      read_directory ⟨fs.meta, Function.update fs.entries p (some (pre ++ e :: post))⟩
          false depth root =
        read_directory ⟨fs.meta, Function.update fs.entries p (some (pre ++ post))⟩
          false depth root) :=
  ⟨fun fs depth path f h => build_hidden_free fs depth path f h,
   fun fs p pre post e hdot depth root =>
     hidden_entry_invisible fs p pre post e hdot depth root⟩

/-- Witness for C7: a concrete build containing no hidden descendants,
and erasing the hidden entry `.h` from a concrete listing leaves the
build unchanged. -/
theorem C7_witness :
    descendantsOk (FSFile.dir "r" [⟨"r", true⟩] exMetaDir
      [.file "a" [⟨"r", true⟩, ⟨"a", true⟩] exMetaFile,
       .file "b" [⟨"r", true⟩, ⟨"b", true⟩] exMetaFile]) = true ∧
    read_directory ⟨exFs2.meta, Function.update exFs2.entries [⟨"r", true⟩]
        (some ([⟨"b", true⟩] ++ ⟨".h", true⟩ :: [⟨"a", true⟩]))⟩ false 1 [⟨"r", true⟩] =
      read_directory ⟨exFs2.meta, Function.update exFs2.entries [⟨"r", true⟩]
        (some ([⟨"b", true⟩] ++ [⟨"a", true⟩]))⟩ false 1 [⟨"r", true⟩] :=
  ⟨C7_hidden_dropped_before_inspection.1 exFs2 1 [⟨"r", true⟩] _ rfl,
   C7_hidden_dropped_before_inspection.2 exFs2 [⟨"r", true⟩] [⟨"b", true⟩]
     [⟨"a", true⟩] ⟨".h", true⟩ rfl 1 [⟨"r", true⟩]⟩


theorem foldr_fuel_child_step (fs : Fs) (all : Bool) (d : Nat) (path : FsPath)
    (recf : FsPath → Option (Except String FSFile))
    (hrec : ∀ c : OsName, recf (path ++ [c]) =
      some (read_directory fs all d (path ++ [c]))) :
    ∀ de : List OsName, de.foldr (fuel_child_step fs recf path) (some []) =
      some (de.filterMap (child_step fs all d path)) := by
  intro de
  induction de with
  | nil => rfl
  | cons c cs ihc =>
    rw [List.foldr_cons, ihc, List.filterMap_cons]
    simp only [fuel_child_step]
    rw [hrec c]
    unfold child_step
    cases hcm : fs.meta (path ++ [c]) with
    | none => rfl
    | some cm =>
      dsimp only
      cases hk : cm.kind with
      | dir =>
        dsimp only
        cases hr : read_directory fs all d (path ++ [c]) with
        | ok sub => rfl
        | error e => rfl
      | file =>
        dsimp only
        cases hcu : c.utf8 with
        | false => rfl
        | true => rfl
      | symlink => rfl
      | other => rfl

theorem read_directory_fuel_stabilises (fs : Fs) (all : Bool) :
    ∀ (fuel depth : Nat) (path : FsPath), depth < fuel →
      read_directory_fuel fs all fuel depth path =
        some (read_directory fs all depth path) := by
  intro fuel
  induction fuel with
  | zero =>
    intro depth path h
    exact absurd h (Nat.not_lt_zero _)
  | succ f ih =>
    intro depth path h
    rw [read_directory_fuel]
    cases depth with
    | zero =>
      rw [read_directory_zero]
      split
      · rfl
      · split
        · split
          · rfl
          · rfl
        · rfl
    | succ d =>
      rw [read_directory_succ]
      split
      · rfl
      · split
        · split
          · rfl
          · split
            · omega
            next d2 heq =>
              rw [show d2 = d by omega]
              split
              · rfl
              · simp only [foldr_fuel_child_step fs all d path
                    (read_directory_fuel fs all f d)
                    (fun c => ih d (path ++ [c]) (Nat.lt_of_succ_lt_succ h))]
        · rfl

/-- C9: the builder's recursion terminates, well-founded on the depth
budget: under the fuel-metered semantics (`read_directory_fuel`, where
`none` means the recursion did not finish within the given number of
nested calls), any fuel exceeding the depth budget suffices — for every
filesystem oracle, even a cyclic one, and every root path — and the value
it stabilises to is `read_directory`'s. Each recursive call consumes one
unit of depth and the recursion stops when the budget reaches zero. -/
theorem C9_terminates_on_depth_budget (fs : Fs) (all : Bool) (fuel depth : Nat)
    (path : FsPath) (h : depth < fuel) :
    read_directory_fuel fs all fuel depth path =
      some (read_directory fs all depth path) :=
  read_directory_fuel_stabilises fs all fuel depth path h

/-- Witness for C9 at a concrete filesystem, depth 1 and fuel 2. -/
theorem C9_witness :
    read_directory_fuel exFs2 false 2 1 [⟨"r", true⟩] =
      some (read_directory exFs2 false 1 [⟨"r", true⟩]) :=
  C9_terminates_on_depth_budget exFs2 false 2 1 [⟨"r", true⟩] (by decide)

end Rls
